import Mathlib

/-!
Verification of the media reference resolution and adaptive transcoding
gateway of `internal/chatlog/http/route.go`: the handlers `GetMedia`,
`GetMediaData`, `HandleDatFile`, `HandleVoice` and their route wrappers
`GetImage`, `GetVideo`, `GetFile`, `GetVoice`.

The Go handlers are embedded as pure Lean functions.  Effectful
collaborators (the filesystem `os.Stat`/`os.ReadFile`, the metadata store
`s.db.GetMedia`, the silk voice transcoder and the dat container decoder)
are parameters of an `Env` record.  A handler result is the response the
gin context was asked to write (`Option GinResp`, where `none` means the
handler returned without writing any response) paired with a trace of the
observable collaborator calls and emissions (`List Ev`).
-/

namespace Chatlog

/-- Outcome of an `os.Stat` probe as the Go code discriminates it:
the file exists, `os.IsNotExist(err)` holds, or the probe failed for some
other reason (e.g. permission error). -/
inductive StatRes
| ok
| notExist
| errOther
deriving DecidableEq

/-- Modelled from the spec: errors returned by the metadata store accessor
(`s.db.GetMedia`, not part of the visible source).  Per §7 of the spec a
store failure is "mapped to 404 or 500 depending on whether it is a
'not found' subtype". -/
inductive StoreErr
| notFound (msg : String)
| internal (msg : String)
deriving DecidableEq

/-- The media record returned by the store: `Type` (here `Typ`, since
`Type` is reserved in Lean), `Path` and the inline `Data` payload. -/
structure MediaRecord where
  Typ : String
  Path : String
  Data : List Nat
deriving DecidableEq

/-- A response written to the gin context: `c.JSON` of a media record,
`c.JSON` of an error body, `c.Redirect`, `c.Data`, or `c.File`. -/
inductive GinResp
| jsonMedia (status : Nat) (m : MediaRecord)
| jsonError (status : Nat) (msg : String)
| redirect (status : Nat) (location : String)
| dataResp (status : Nat) (contentType : String) (body : List Nat)
| fileResp (path : String)
deriving DecidableEq

/-- Observable events of one request: a filesystem probe, a store lookup,
recording a lookup error into the accumulator, a store hit, issuing a
redirect, and invoking the voice transcoder on a payload. -/
inductive Ev
| statProbe (path : String)
| storeLookup (typ k : String)
| errRecorded (e : StoreErr)
| storeHit (k : String)
| redirected (loc : String)
| transcoded (d : List Nat)
deriving DecidableEq

/-- The request environment: the fixed data root `s.ctx.DataDir` and the
external collaborators. -/
structure Env where
  dataDir : String
  fs : String → StatRes
  store : String → String → Except StoreErr MediaRecord
  silk : List Nat → Except String (List Nat)
  dat : List Nat → Except String (List Nat × String)
  readF : String → Except String (List Nat)

/-! ### Path primitives: Go `strings.Split`, `filepath.Clean`, `filepath.Join` -/

/-- Prepend a character to the first chunk of a split result. -/
def consHead (c : Char) : List (List Char) → List (List Char)
| [] => [[c]]
| h :: t => (c :: h) :: t

/-- Go `strings.Split(s, sep)` for a one-character separator, on the
character list of the string. -/
def splitPart (sep : Char) : List Char → List (List Char)
| [] => [[]]
| c :: cs => if c = sep then [] :: splitPart sep cs else consHead c (splitPart sep cs)

/-- Whether a path is rooted (begins with the separator), as in Go
`path[0] == '/'`. -/
def rooted : List Char → Bool
| '/' :: _ => true
| _ => false

/-- One element step of Go `filepath.Clean`'s buffer loop: empty and `.`
elements are dropped; `..` pops the last real element, is appended when
nothing can be popped and the path is not rooted, and is dropped when the
path is rooted; any other element is appended.  The buffer is kept in
reverse order (head = most recent element). -/
def cleanStep (isRooted : Bool) (acc : List (List Char)) (seg : List Char) : List (List Char) :=
  if seg = [] ∨ seg = ['.'] then acc
  else if seg = ['.', '.'] then
    match acc with
    | [] => if isRooted then [] else [['.', '.']]
    | h :: t => if h = ['.', '.'] then ['.', '.'] :: h :: t else t
  else seg :: acc

/-- The cleaned element list of a path (in order). -/
def cleanSegs (isRooted : Bool) (l : List Char) : List (List Char) :=
  ((splitPart '/' l).foldl (cleanStep isRooted) []).reverse

/-- Join path elements back with `'/'`. -/
def joinSegs : List (List Char) → List Char
| [] => []
| [s] => s
| s :: t :: rest => s ++ '/' :: joinSegs (t :: rest)

/-- The cleaned element list of a string path. -/
def goCleanSegs (s : String) : List (List Char) := cleanSegs (rooted s.data) s.data

/-- Go `path/filepath.Clean` for slash-separated paths: `""` cleans to
`"."`; otherwise `.`/`..`/empty elements are collapsed and the result is
reassembled, with `"/"` (rooted) or `"."` (relative) for an empty result. -/
def goClean (s : String) : String :=
  if s.data = [] then "."
  else if goCleanSegs s = [] then (if rooted s.data then "/" else ".")
  else ⟨(if rooted s.data then ['/'] else []) ++ joinSegs (goCleanSegs s)⟩

/-- Go `path/filepath.Join` of two elements: skip leading empty elements,
join the rest with `'/'` and `Clean` the result. -/
def goJoin (a b : String) : String :=
  if a = "" then (if b = "" then "" else goClean b) else goClean (a ++ "/" ++ b)

/-- Whether a path element survives cleaning untouched (it is neither
empty nor `.`). -/
def keepSeg (s : List Char) : Bool := decide (¬(s = [] ∨ s = ['.']))

/-- The real elements of a path: its slash-separated chunks with empty
and `.` chunks dropped.  `realSegs root <+: realSegs p` states that `p`
lies within the directory `root`. -/
def realSegs (s : String) : List (List Char) := (splitPart '/' s.data).filter keepSeg

/-- Helper for Go `filepath.Ext`: scan the reversed character list until a
`'.'` (return the extension) or a `'/'`/the start (no extension). -/
def extOfAux : List Char → List Char → List Char
| [], _ => []
| c :: rest, acc => if c = '/' then [] else if c = '.' then '.' :: acc else extOfAux rest (c :: acc)

/-- Go `filepath.Ext`: the suffix of the final path element starting at
its final dot, empty when there is none. -/
def extOf (s : String) : String := ⟨extOfAux s.data.reverse []⟩

/-- Go `strings.ToLower` (ASCII-relevant part). -/
def toLowerStr (s : String) : String := ⟨s.data.map Char.toLower⟩

/-- Go `strings.TrimPrefix`: drop `pre` when it is a prefix of `s`,
otherwise return `s` unchanged. -/
def trimPfx (s pre : String) : String :=
  if pre.data.isPrefixOf s.data then ⟨s.data.drop pre.data.length⟩ else s

/-- Modelled from the spec: `util.Str2List` (from `pkg/util`, not part of
the visible source) splits the key on the separator and keeps the
non-empty candidates — the key "splits into zero non-empty candidates
after trimming a leading path separator and splitting on `,`" exactly
when this list is empty.  The source calls it with separator `","`. -/
def Str2List (s : String) (sep : Char) : List String :=
  ((splitPart sep s.data).map (fun l => (⟨l⟩ : String))).filter (fun x => x ≠ "")

/-! ### The error package (modelled from the spec) -/

/-- Modelled from the spec: `errors.InvalidArg(key)` rendered by
`errors.Err` — "400 (invalid/empty key)" with a structured error body. -/
def invalidArgResp (key : String) : GinResp := .jsonError 400 key

/-- Modelled from the spec: `errors.Err` rendering of a store failure —
"surfaced as the last recorded error, mapped to 404 or 500 depending on
whether it is a 'not found' subtype" (§7). -/
def errResp : StoreErr → GinResp
| .notFound m => .jsonError 404 m
| .internal m => .jsonError 500 m

/-! ### The handlers of `route.go` -/

/-- Handler `HandleVoice` (route.go:394): transcode the silk payload with
`silk.Silk2MP3`; on failure write the original bytes as `audio/silk`,
on success write the transcoded bytes as `audio/mp3`, both status 200. -/
def HandleVoice (env : Env) (data : List Nat) : GinResp :=
  match env.silk data with
  | .error _ => .dataResp 200 "audio/silk" data
  | .ok out => .dataResp 200 "audio/mp3" out

/-- The response written for a store hit (route.go:323-334): with the
`info` query flag, the record as JSON; otherwise dispatch on the record's
`Type`: `"voice"` goes to `HandleVoice` over the record's `Data`, anything
else redirects (302) to the data endpoint for the record's `Path`. -/
def hitOutcome (env : Env) (info : Bool) (m : MediaRecord) : GinResp :=
  if info then .jsonMedia 200 m
  else if m.Typ = "voice" then HandleVoice env m.Data
  else .redirect 302 ("/data/" ++ m.Path)

/-- Trace events of a store hit, mirroring `hitOutcome`. -/
def hitEvents (info : Bool) (typ k : String) (m : MediaRecord) : List Ev :=
  .storeLookup typ k :: .storeHit k ::
    (if info then []
     else if m.Typ = "voice" then [.transcoded m.Data]
     else [.redirected ("/data/" ++ m.Path)])

/-- The candidate loop of `GetMedia` (route.go:309-340).  A non-32
character candidate is a relative path: probe it under the data root,
skip it when the probe says the file does not exist, otherwise redirect
to the data endpoint.  A 32 character candidate is looked up in the
store; a lookup failure is recorded into the single-slot accumulator and
the loop continues; a hit produces `hitOutcome`.  After exhaustion the
recorded error (if any) is rendered; otherwise NO response is written
(the handler just returns), modelled as `none`. -/
def mediaLoop (env : Env) (typ : String) (info : Bool) :
    List String → Option StoreErr → Option GinResp × List Ev
| [], acc => (acc.map errResp, [])
| k :: rest, acc =>
  if k.length ≠ 32 then
    if env.fs (goJoin env.dataDir k) = .notExist then
      ((mediaLoop env typ info rest acc).1,
        .statProbe (goJoin env.dataDir k) :: (mediaLoop env typ info rest acc).2)
    else
      (some (.redirect 302 ("/data/" ++ k)),
        [.statProbe (goJoin env.dataDir k), .redirected ("/data/" ++ k)])
  else
    match env.store typ k with
    | .error e =>
      ((mediaLoop env typ info rest (some e)).1,
        .storeLookup typ k :: .errRecorded e :: (mediaLoop env typ info rest (some e)).2)
    | .ok m => (some (hitOutcome env info m), hitEvents info typ k m)

/-- Handler `GetMedia` (route.go:295): trim the leading `/` of the wildcard key
parameter, reject an empty key or an empty candidate list with
`InvalidArg`, then run the candidate loop.  `info` is whether
`c.Query("info") != ""`. -/
def GetMedia (env : Env) (typ param : String) (info : Bool) : Option GinResp × List Ev :=
  if trimPfx param "/" = "" then (some (invalidArgResp (trimPfx param "/")), [])
  else if Str2List (trimPfx param "/") ',' = [] then
    (some (invalidArgResp (trimPfx param "/")), [])
  else mediaLoop env typ info (Str2List (trimPfx param "/") ',') none

/-- Route wrapper `GetImage` (route.go:280). -/
def GetImage (env : Env) (param : String) (info : Bool) : Option GinResp × List Ev :=
  GetMedia env "image" param info

/-- Route wrapper `GetVideo` (route.go:284). -/
def GetVideo (env : Env) (param : String) (info : Bool) : Option GinResp × List Ev :=
  GetMedia env "video" param info

/-- Route wrapper `GetFile` (route.go:288). -/
def GetFile (env : Env) (param : String) (info : Bool) : Option GinResp × List Ev :=
  GetMedia env "file" param info

/-- Route wrapper `GetVoice` (route.go:291). -/
def GetVoice (env : Env) (param : String) (info : Bool) : Option GinResp × List Ev :=
  GetMedia env "voice" param info

/-- The content type `HandleDatFile` chooses for a decoded format tag
(route.go:379-391). -/
def ctFor (fmt : String) : String :=
  if fmt = "jpg" then "image/jpeg"
  else if fmt = "png" then "image/png"
  else if fmt = "gif" then "image/gif"
  else if fmt = "bmp" then "image/bmp"
  else "image/jpg"

/-- Handler `HandleDatFile` (route.go:366): read the file (a read error is
rendered by `errors.Err`, modelled as a 500 error body per spec §7),
run `dat2img.Dat2Image`; on decode failure serve the raw file verbatim
with `c.File`, on success write the decoded bytes with the exact
content-type mapping. -/
def HandleDatFile (env : Env) (path : String) : GinResp :=
  match env.readF path with
  | .error msg => .jsonError 500 msg
  | .ok b =>
    match env.dat b with
    | .error _ => .fileResp path
    | .ok (out, fmt) => .dataResp 200 (ctFor fmt) out

/-- The absolute path computed by `GetMediaData` (route.go:344-346):
`filepath.Clean` of the wildcard parameter, then `filepath.Join` with the
data root — normalization happens before joining and before any
existence check. -/
def GetMediaData_abs (dataDir param : String) : String := goJoin dataDir (goClean param)

/-- Handler `GetMediaData` (route.go:343): resolve the absolute path, 404 when
the stat probe reports the file does not exist, dispatch `.dat` files
(extension lowercased) to `HandleDatFile`, serve anything else with
`c.File`. -/
def GetMediaData (env : Env) (param : String) : GinResp :=
  match env.fs (GetMediaData_abs env.dataDir param) with
  | .notExist => .jsonError 404 "File not found"
  | _ =>
    if toLowerStr (extOf (GetMediaData_abs env.dataDir param)) = ".dat" then
      HandleDatFile env (GetMediaData_abs env.dataDir param)
    else .fileResp (GetMediaData_abs env.dataDir param)

/-! ### Derived notions used by the claims -/

/-- A candidate the loop skips: a path candidate whose probe says
not-exists, or a hash candidate whose lookup fails. -/
def skippable (env : Env) (typ k : String) : Prop :=
  (k.length ≠ 32 ∧ env.fs (goJoin env.dataDir k) = .notExist) ∨
  (k.length = 32 ∧ ∃ e, env.store typ k = .error e)

/-- The value of the single-slot error accumulator after the loop runs a
candidate list to exhaustion: each failing hash lookup overwrites it,
path candidates never touch it. -/
def exhaustErr (env : Env) (typ : String) : List String → Option StoreErr → Option StoreErr
| [], acc => acc
| k :: rest, acc =>
  if k.length ≠ 32 then exhaustErr env typ rest acc
  else
    match env.store typ k with
    | .error e => exhaustErr env typ rest (some e)
    | .ok _ => exhaustErr env typ rest acc

/-- Recognize error-recording events in a trace. -/
def isErrEv : Ev → Bool
| .errRecorded _ => true
| _ => false

/-- A path element the cleaning loop can output: non-empty, not `.`,
and containing no separator. -/
def goodSeg (s : List Char) : Prop := s ≠ [] ∧ s ≠ ['.'] ∧ '/' ∉ s

/-! ### Concrete environments and records used to instantiate the theorems -/

/-- A record of type `image` with a stored path. -/
def recImage : MediaRecord := ⟨"image", "img/1.jpg", []⟩

/-- A record of type `voice` with an inline payload. -/
def recVoice : MediaRecord := ⟨"voice", "", [7, 8]⟩

/-- A 32-character content hash. -/
def hashK : String := "0123456789abcdef0123456789abcdef"

/-- A 32-character content hash (all `a`). -/
def hashA : String := "aaaaaaaaaaaaaaaaaaaaaaaaaaaaaaaa"

/-- A 32-character content hash (all `b`). -/
def hashB : String := "bbbbbbbbbbbbbbbbbbbbbbbbbbbbbbbb"

/-- Environment in which every probe misses, every lookup fails, and every
transcoder fails. -/
def envMiss : Env :=
  ⟨"/data", fun _ => .notExist, fun _ _ => .error (.notFound "media not found"),
   fun _ => .error "silk error", fun _ => .error "dat error", fun _ => .error "io error"⟩

/-- Environment whose voice transcoder succeeds with `[9, 9]`. -/
def envSilkOk : Env :=
  ⟨"/data", fun _ => .notExist, fun _ _ => .error (.notFound "media not found"),
   fun _ => .ok [9, 9], fun _ => .error "dat error", fun _ => .error "io error"⟩

/-- Environment whose filesystem probes fail with a non-not-exist error. -/
def envStatErr : Env :=
  ⟨"/data", fun _ => .errOther, fun _ _ => .error (.notFound "media not found"),
   fun _ => .error "silk error", fun _ => .error "dat error", fun _ => .error "io error"⟩

/-- Environment whose store always returns the voice record. -/
def envHitVoice : Env :=
  ⟨"/data", fun _ => .notExist, fun _ _ => .ok recVoice,
   fun _ => .error "silk error", fun _ => .error "dat error", fun _ => .error "io error"⟩

/-- Environment whose store always returns the image record. -/
def envHitImage : Env :=
  ⟨"/data", fun _ => .notExist, fun _ _ => .ok recImage,
   fun _ => .error "silk error", fun _ => .error "dat error", fun _ => .error "io error"⟩

/-- Environment in which the lookup of `hashB` hits and every other lookup
fails with an internal error. -/
def envAB : Env :=
  ⟨"/data", fun _ => .notExist,
   fun _ k => if k = "bbbbbbbbbbbbbbbbbbbbbbbbbbbbbbbb" then .ok recImage
              else .error (.internal "db down"),
   fun _ => .error "silk error", fun _ => .error "dat error", fun _ => .error "io error"⟩

/-- Environment whose files all exist, whose reads return `[1, 2, 3]` and
whose dat decoder returns png bytes `[4, 5]`. -/
def envDat : Env :=
  ⟨"/data", fun _ => .ok, fun _ _ => .error (.notFound "media not found"),
   fun _ => .error "silk error", fun _ => .ok ([4, 5], "png"), fun _ => .ok [1, 2, 3]⟩

/-! ### Lemmas about splitting and joining path elements -/

theorem consHead_ne_nil (c : Char) (l : List (List Char)) : consHead c l ≠ [] := by
  cases l <;> simp [consHead]

theorem splitPart_ne_nil (sep : Char) (l : List Char) : splitPart sep l ≠ [] := by
  cases l with
  | nil => simp [splitPart]
  | cons c cs =>
    simp only [splitPart]
    split
    · simp
    · exact consHead_ne_nil c _

theorem consHead_append (c : Char) (A B : List (List Char)) (h : A ≠ []) :
    consHead c (A ++ B) = consHead c A ++ B := by
  cases A with
  | nil => exact absurd rfl h
  | cons a t => simp [consHead]

theorem splitPart_append (sep : Char) (xs ys : List Char) :
    splitPart sep (xs ++ sep :: ys) = splitPart sep xs ++ splitPart sep ys := by
  induction xs with
  | nil => simp [splitPart]
  | cons x xs ih =>
    by_cases hx : x = sep
    · simp [splitPart, hx, ih]
    · have e1 : splitPart sep ((x :: xs) ++ sep :: ys) =
          consHead x (splitPart sep (xs ++ sep :: ys)) := by
        rw [List.cons_append]
        simp [splitPart, hx]
      have e2 : splitPart sep (x :: xs) = consHead x (splitPart sep xs) := by
        simp [splitPart, hx]
      rw [e1, ih, consHead_append x _ _ (splitPart_ne_nil sep xs), e2]

theorem splitPart_no_sep (sep : Char) (l : List Char) (h : sep ∉ l) :
    splitPart sep l = [l] := by
  induction l with
  | nil => rfl
  | cons c cs ih =>
    have hc : ¬(c = sep) := fun hc => h (hc ▸ List.mem_cons_self c cs)
    have hcs : sep ∉ cs := fun hm => h (List.mem_cons_of_mem _ hm)
    simp [splitPart, if_neg hc, ih hcs, consHead]

theorem splitPart_mem_no_sep (sep : Char) :
    ∀ (l : List Char) (x : List Char), x ∈ splitPart sep l → sep ∉ x := by
  intro l
  induction l with
  | nil =>
    intro x hx
    simp [splitPart] at hx
    simp [hx]
  | cons c cs ih =>
    intro x hx
    by_cases hc : c = sep
    · simp only [splitPart, if_pos hc] at hx
      rcases List.mem_cons.mp hx with h | h
      · simp [h]
      · exact ih x h
    · simp only [splitPart, if_neg hc] at hx
      cases hsp : splitPart sep cs with
      | nil => exact absurd hsp (splitPart_ne_nil sep cs)
      | cons hh tt =>
        rw [hsp] at hx
        simp only [consHead] at hx
        rcases List.mem_cons.mp hx with h | h
        · subst h
          intro hmem
          rcases List.mem_cons.mp hmem with h1 | h1
          · exact hc h1.symm
          · exact ih hh (hsp ▸ List.mem_cons_self hh tt) h1
        · exact ih x (hsp ▸ List.mem_cons_of_mem hh h)

theorem joinSegs_split (segs : List (List Char)) (hne : segs ≠ [])
    (hns : ∀ s ∈ segs, '/' ∉ s) : splitPart '/' (joinSegs segs) = segs := by
  induction segs with
  | nil => exact absurd rfl hne
  | cons s t ih =>
    cases t with
    | nil =>
      show splitPart '/' (joinSegs [s]) = [s]
      rw [show joinSegs [s] = s from rfl]
      exact splitPart_no_sep '/' s (hns s (List.mem_cons_self s []))
    | cons s2 t2 =>
      rw [show joinSegs (s :: s2 :: t2) = s ++ '/' :: joinSegs (s2 :: t2) from rfl,
        splitPart_append, splitPart_no_sep '/' s (hns s (List.mem_cons_self _ _)),
        ih (by simp) (fun x hx => hns x (List.mem_cons_of_mem s hx))]
      rfl

/-! ### Lemmas about the cleaning fold -/

theorem keepSeg_of_good (s : List Char) (h : goodSeg s) : keepSeg s = true := by
  rcases h with ⟨h1, h2, _⟩
  simp [keepSeg, h1, h2]

theorem foldl_cleanStep_no_dd (r : Bool) :
    ∀ (segs acc : List (List Char)),
    (∀ s ∈ segs, s ≠ ['.', '.']) →
    segs.foldl (cleanStep r) acc = (segs.filter keepSeg).reverse ++ acc := by
  intro segs
  induction segs with
  | nil => intro acc _; rfl
  | cons s t ih =>
    intro acc hs
    have hsd : ¬(s = ['.', '.']) := hs s (List.mem_cons_self _ _)
    have ht : ∀ x ∈ t, x ≠ ['.', '.'] := fun x hx => hs x (List.mem_cons_of_mem _ hx)
    by_cases hk : s = [] ∨ s = ['.']
    · rw [List.foldl_cons, show cleanStep r acc s = acc from by simp [cleanStep, if_pos hk],
        ih acc ht]
      have hkeep : keepSeg s = false := by simp [keepSeg, hk]
      simp [List.filter_cons, hkeep]
    · rw [List.foldl_cons,
        show cleanStep r acc s = s :: acc from by simp [cleanStep, if_neg hk, if_neg hsd],
        ih (s :: acc) ht]
      have hkeep : keepSeg s = true := by simp [keepSeg, hk]
      simp [List.filter_cons, hkeep, List.append_assoc]

theorem cleanStep_good (r : Bool) (acc : List (List Char)) (s : List Char)
    (hacc : ∀ x ∈ acc, goodSeg x) (hs : '/' ∉ s) :
    ∀ x ∈ cleanStep r acc s, goodSeg x := by
  have hdd : goodSeg ['.', '.'] := ⟨by decide, by decide, by decide⟩
  intro x hx
  by_cases h1 : s = [] ∨ s = ['.']
  · rw [show cleanStep r acc s = acc from by simp [cleanStep, if_pos h1]] at hx
    exact hacc x hx
  · by_cases h2 : s = ['.', '.']
    · cases acc with
      | nil =>
        cases r with
        | true =>
          rw [show cleanStep true [] s = [] from by simp [cleanStep, h1, h2]] at hx
          exact absurd hx (List.not_mem_nil x)
        | false =>
          rw [show cleanStep false [] s = [['.', '.']] from by simp [cleanStep, h1, h2]] at hx
          rw [List.mem_singleton] at hx
          subst hx
          exact hdd
      | cons h t =>
        by_cases hh : h = ['.', '.']
        · rw [show cleanStep r (h :: t) s = ['.', '.'] :: h :: t from by
            simp [cleanStep, h1, h2, hh]] at hx
          rcases List.mem_cons.mp hx with h3 | h3
          · subst h3; exact hdd
          · exact hacc x h3
        · rw [show cleanStep r (h :: t) s = t from by
            simp [cleanStep, h1, h2, hh]] at hx
          exact hacc x (List.mem_cons_of_mem h hx)
    · rw [show cleanStep r acc s = s :: acc from by simp [cleanStep, h1, h2]] at hx
      rcases List.mem_cons.mp hx with h3 | h3
      · subst h3
        rcases not_or.mp h1 with ⟨hne, hnd⟩
        exact ⟨hne, hnd, hs⟩
      · exact hacc x h3

theorem foldl_cleanStep_good (r : Bool) :
    ∀ (segs acc : List (List Char)),
    (∀ s ∈ segs, '/' ∉ s) → (∀ x ∈ acc, goodSeg x) →
    ∀ x ∈ segs.foldl (cleanStep r) acc, goodSeg x := by
  intro segs
  induction segs with
  | nil => intro acc _ hacc x hx; exact hacc x hx
  | cons s t ih =>
    intro acc hsegs hacc x hx
    rw [List.foldl_cons] at hx
    exact ih (cleanStep r acc s) (fun y hy => hsegs y (List.mem_cons_of_mem _ hy))
      (cleanStep_good r acc s hacc (hsegs s (List.mem_cons_self _ _))) x hx

theorem cleanStep_rooted_no_dd (acc : List (List Char)) (s : List Char)
    (hacc : ∀ x ∈ acc, x ≠ ['.', '.']) :
    ∀ x ∈ cleanStep true acc s, x ≠ ['.', '.'] := by
  intro x hx
  by_cases h1 : s = [] ∨ s = ['.']
  · rw [show cleanStep true acc s = acc from by simp [cleanStep, if_pos h1]] at hx
    exact hacc x hx
  · by_cases h2 : s = ['.', '.']
    · cases acc with
      | nil =>
        rw [show cleanStep true [] s = [] from by simp [cleanStep, h1, h2]] at hx
        exact absurd hx (List.not_mem_nil x)
      | cons h t =>
        have hh : ¬(h = ['.', '.']) := hacc h (List.mem_cons_self _ _)
        rw [show cleanStep true (h :: t) s = t from by simp [cleanStep, h1, h2, hh]] at hx
        exact hacc x (List.mem_cons_of_mem h hx)
    · rw [show cleanStep true acc s = s :: acc from by simp [cleanStep, h1, h2]] at hx
      rcases List.mem_cons.mp hx with h3 | h3
      · subst h3; exact h2
      · exact hacc x h3

theorem foldl_cleanStep_rooted_no_dd :
    ∀ (segs acc : List (List Char)),
    (∀ x ∈ acc, x ≠ ['.', '.']) →
    ∀ x ∈ segs.foldl (cleanStep true) acc, x ≠ ['.', '.'] := by
  intro segs
  induction segs with
  | nil => intro acc hacc x hx; exact hacc x hx
  | cons s t ih =>
    intro acc hacc x hx
    rw [List.foldl_cons] at hx
    exact ih (cleanStep true acc s) (cleanStep_rooted_no_dd acc s hacc) x hx

/-! ### Lemmas about string data -/

theorem strData_append (a b : String) : (a ++ b).data = a.data ++ b.data := by
  cases a; cases b; rfl

theorem strMk_data (s : String) : (⟨s.data⟩ : String) = s := by
  cases s; rfl

theorem trimPfx_slash (s : String) : trimPfx ("/" ++ s) "/" = s := by
  have hdata : ("/" ++ s).data = '/' :: s.data := by
    rw [strData_append]; rfl
  unfold trimPfx
  rw [hdata, show ("/" : String).data = ['/'] from rfl]
  simp [List.isPrefixOf, strMk_data]

theorem Str2List_pair (a b : String) (ha : ',' ∉ a.data) (hb : ',' ∉ b.data)
    (hA : a.data ≠ []) (hB : b.data ≠ []) :
    Str2List (a ++ "," ++ b) ',' = [a, b] := by
  have hdata : (a ++ "," ++ b).data = a.data ++ ',' :: b.data := by
    rw [strData_append, strData_append, List.append_assoc]
    rfl
  have ha' : a ≠ "" := fun h => hA (by rw [h])
  have hb' : b ≠ "" := fun h => hB (by rw [h])
  unfold Str2List
  rw [hdata, splitPart_append, splitPart_no_sep ',' a.data ha, splitPart_no_sep ',' b.data hb]
  simp [strMk_data, List.filter_cons, ha', hb']

/-! ### Lemmas about the candidate loop -/

theorem hitEvents_no_err (info : Bool) (typ k : String) (m : MediaRecord) (e : StoreErr) :
    Ev.errRecorded e ∉ hitEvents info typ k m := by
  unfold hitEvents
  intro h
  rcases List.mem_cons.mp h with h1 | h1
  · exact Ev.noConfusion h1
  rcases List.mem_cons.mp h1 with h2 | h2
  · exact Ev.noConfusion h2
  · split at h2
    · simp at h2
    · split at h2 <;> simp at h2

theorem hitEvents_filter_err (info : Bool) (typ k : String) (m : MediaRecord) :
    (hitEvents info typ k m).filter isErrEv = [] := by
  unfold hitEvents
  split
  · simp [isErrEv]
  · split <;> simp [isErrEv]

/-- No branch of the candidate loop can produce a 400 response: store
errors render as 404 or 500, and all other outcomes are not JSON errors. -/
theorem mediaLoop_no_400 (env : Env) (typ : String) (info : Bool) :
    ∀ (keys : List String) (acc : Option StoreErr) (msg : String),
    (mediaLoop env typ info keys acc).1 ≠ some (.jsonError 400 msg) := by
  intro keys
  induction keys with
  | nil =>
    intro acc msg h
    cases acc with
    | none => simp [mediaLoop] at h
    | some e => cases e <;> simp [mediaLoop, errResp] at h
  | cons k rest ih =>
    intro acc msg h
    by_cases hlen : k.length ≠ 32
    · by_cases hfs : env.fs (goJoin env.dataDir k) = .notExist
      · rw [show (mediaLoop env typ info (k :: rest) acc).1 =
            (mediaLoop env typ info rest acc).1 from by simp [mediaLoop, hlen, hfs]] at h
        exact ih acc msg h
      · rw [show (mediaLoop env typ info (k :: rest) acc).1 =
            some (.redirect 302 ("/data/" ++ k)) from by simp [mediaLoop, hlen, hfs]] at h
        simp at h
    · cases hstore : env.store typ k with
      | error e =>
        rw [show (mediaLoop env typ info (k :: rest) acc).1 =
            (mediaLoop env typ info rest (some e)).1 from by
          simp [mediaLoop, hlen, hstore]] at h
        exact ih (some e) msg h
      | ok m =>
        rw [show (mediaLoop env typ info (k :: rest) acc).1 =
            some (hitOutcome env info m) from by simp [mediaLoop, hlen, hstore]] at h
        have hh : hitOutcome env info m = .jsonError 400 msg := by
          simpa using h
        unfold hitOutcome at hh
        split at hh
        · exact GinResp.noConfusion hh
        · split at hh
          · unfold HandleVoice at hh
            split at hh <;> exact GinResp.noConfusion hh
          · exact GinResp.noConfusion hh

/-- Skippable candidates do not change the final response of the loop,
only the error accumulator. -/
theorem mediaLoop_skip (env : Env) (typ : String) (info : Bool) :
    ∀ (pre : List String), (∀ p ∈ pre, skippable env typ p) →
    ∀ (l : List String) (acc : Option StoreErr),
    ∃ acc2, (mediaLoop env typ info (pre ++ l) acc).1 = (mediaLoop env typ info l acc2).1 := by
  intro pre
  induction pre with
  | nil => intro _ l acc; exact ⟨acc, rfl⟩
  | cons p t ih =>
    intro hp l acc
    rcases hp p (List.mem_cons_self _ _) with ⟨hlen, hfs⟩ | ⟨hlen, e, hstore⟩
    · have h1 : (mediaLoop env typ info ((p :: t) ++ l) acc).1 =
          (mediaLoop env typ info (t ++ l) acc).1 := by
        simp [mediaLoop, hlen, hfs]
      rcases ih (fun x hx => hp x (List.mem_cons_of_mem _ hx)) l acc with ⟨acc2, h2⟩
      exact ⟨acc2, h1.trans h2⟩
    · have h1 : (mediaLoop env typ info ((p :: t) ++ l) acc).1 =
          (mediaLoop env typ info (t ++ l) (some e)).1 := by
        simp [mediaLoop, hlen, hstore]
      rcases ih (fun x hx => hp x (List.mem_cons_of_mem _ hx)) l (some e) with ⟨acc2, h2⟩
      exact ⟨acc2, h1.trans h2⟩

/-- Skipping a prefix of non-existent path candidates contributes exactly
one stat-probe event per candidate and leaves the accumulator untouched. -/
theorem mediaLoop_skip_paths (env : Env) (typ : String) (info : Bool) :
    ∀ (pre : List String),
    (∀ p ∈ pre, p.length ≠ 32 ∧ env.fs (goJoin env.dataDir p) = .notExist) →
    ∀ (l : List String) (acc : Option StoreErr),
    mediaLoop env typ info (pre ++ l) acc =
      ((mediaLoop env typ info l acc).1,
        pre.map (fun p => .statProbe (goJoin env.dataDir p)) ++
          (mediaLoop env typ info l acc).2) := by
  intro pre
  induction pre with
  | nil => intro _ l acc; simp
  | cons p t ih =>
    intro hp l acc
    rcases hp p (List.mem_cons_self _ _) with ⟨hlen, hfs⟩
    have hrec := ih (fun x hx => hp x (List.mem_cons_of_mem _ hx)) l acc
    rw [List.cons_append]
    simp [mediaLoop, hlen, hfs, hrec]

/-- When every candidate is skippable the loop result is the rendering of
the final accumulator value. -/
theorem mediaLoop_exhaust (env : Env) (typ : String) (info : Bool) :
    ∀ (keys : List String) (acc : Option StoreErr),
    (∀ k ∈ keys, skippable env typ k) →
    (mediaLoop env typ info keys acc).1 = (exhaustErr env typ keys acc).map errResp := by
  intro keys
  induction keys with
  | nil => intro acc _; rfl
  | cons k t ih =>
    intro acc hk
    rcases hk k (List.mem_cons_self _ _) with ⟨hlen, hfs⟩ | ⟨hlen, e, hstore⟩
    · simp [mediaLoop, exhaustErr, hlen, hfs,
        ih acc (fun x hx => hk x (List.mem_cons_of_mem _ hx))]
    · simp [mediaLoop, exhaustErr, hlen, hstore,
        ih (some e) (fun x hx => hk x (List.mem_cons_of_mem _ hx))]

/-- Path candidates never touch the error accumulator. -/
theorem exhaustErr_paths (env : Env) (typ : String) :
    ∀ (keys : List String) (acc : Option StoreErr),
    (∀ k ∈ keys, k.length ≠ 32) → exhaustErr env typ keys acc = acc := by
  intro keys
  induction keys with
  | nil => intro acc _; rfl
  | cons k t ih =>
    intro acc hk
    simp [exhaustErr, hk k (List.mem_cons_self _ _),
      ih acc (fun x hx => hk x (List.mem_cons_of_mem _ hx))]

/-! ### Claim C7 -/

/-- C7: for every voice payload, voice resolution returns
`InlineBytes("audio/mp3", transcoded)` when the transcoder succeeds, and
on transcoder failure returns `InlineBytes("audio/silk", original)` with
the body byte-identical to the original payload; transcode failure is
never surfaced as an error. -/
theorem c7_voice_transcode (env : Env) (data : List Nat) :
    (∀ e, env.silk data = .error e → HandleVoice env data = .dataResp 200 "audio/silk" data) ∧
    (∀ out, env.silk data = .ok out → HandleVoice env data = .dataResp 200 "audio/mp3" out) := by
  constructor
  · intro e he
    simp [HandleVoice, he]
  · intro out ho
    simp [HandleVoice, ho]

/-- Witness for C7: a failing transcoder yields `audio/silk` with the
original bytes; a succeeding transcoder yields `audio/mp3`. -/
theorem c7_voice_transcode_witness :
    HandleVoice envMiss [1, 2] = .dataResp 200 "audio/silk" [1, 2] ∧
    HandleVoice envSilkOk [1, 2] = .dataResp 200 "audio/mp3" [9, 9] :=
  ⟨(c7_voice_transcode envMiss [1, 2]).1 "silk error" rfl,
   (c7_voice_transcode envSilkOk [1, 2]).2 [9, 9] rfl⟩

/-! ### Claim C9 -/

/-- C9: a path candidate (length ≠ 32) is skipped only when the stat
probe reports not-exists; any other probe outcome (including an error
such as a permission failure) makes the loop immediately redirect to the
data endpoint for that candidate, without any further check. -/
theorem c9_path_probe (env : Env) (typ : String) (info : Bool) (k : String)
    (rest : List String) (acc : Option StoreErr) (hlen : k.length ≠ 32) :
    (env.fs (goJoin env.dataDir k) = .notExist →
      mediaLoop env typ info (k :: rest) acc =
        ((mediaLoop env typ info rest acc).1,
          .statProbe (goJoin env.dataDir k) :: (mediaLoop env typ info rest acc).2)) ∧
    (env.fs (goJoin env.dataDir k) ≠ .notExist →
      mediaLoop env typ info (k :: rest) acc =
        (some (.redirect 302 ("/data/" ++ k)),
          [.statProbe (goJoin env.dataDir k), .redirected ("/data/" ++ k)])) := by
  constructor
  · intro h
    simp [mediaLoop, hlen, h]
  · intro h
    simp [mediaLoop, hlen, h]

/-- Witness for C9: a probe failing with an error other than not-exists
(here `errOther`) short-circuits into a redirect. -/
theorem c9_path_probe_witness :
    mediaLoop envStatErr "image" false ["x.jpg"] none =
      (some (.redirect 302 ("/data/" ++ "x.jpg")),
        [.statProbe (goJoin envStatErr.dataDir "x.jpg"), .redirected ("/data/" ++ "x.jpg")]) :=
  (c9_path_probe envStatErr "image" false "x.jpg" [] none (by decide)).2 (by decide)

/-! ### Claim C10 -/

/-- C10: whether a resolved record is voice-transcoded is decided solely
by the record's `Type` field, not by the request category: for every
category, a store hit with record type `"voice"` is transcoded from the
record's `Data`, and a hit with any other type (also on the `/voice`
route, i.e. category `"voice"`) redirects to the data endpoint for the
record's `Path`. -/
theorem c10_type_dispatch (env : Env) (typ : String) (k : String) (rest : List String)
    (acc : Option StoreErr) (m : MediaRecord) (hlen : k.length = 32)
    (hstore : env.store typ k = .ok m) :
    (m.Typ = "voice" →
      (mediaLoop env typ false (k :: rest) acc).1 = some (HandleVoice env m.Data)) ∧
    (m.Typ ≠ "voice" →
      (mediaLoop env typ false (k :: rest) acc).1 =
        some (.redirect 302 ("/data/" ++ m.Path))) := by
  constructor
  · intro hv
    simp [mediaLoop, hlen, hstore, hitOutcome, hv]
  · intro hv
    simp [mediaLoop, hlen, hstore, hitOutcome, hv]

/-- Witness for C10: on the `/file` route a voice-typed record is
transcoded; on the `/voice` route an image-typed record is redirected. -/
theorem c10_type_dispatch_witness :
    (mediaLoop envHitVoice "file" false [hashK] none).1 =
      some (HandleVoice envHitVoice recVoice.Data) ∧
    (mediaLoop envHitImage "voice" false [hashK] none).1 =
      some (.redirect 302 ("/data/" ++ recImage.Path)) :=
  ⟨(c10_type_dispatch envHitVoice "file" hashK [] none recVoice (by decide) rfl).1 rfl,
   (c10_type_dispatch envHitImage "voice" hashK [] none recImage (by decide) rfl).2 (by decide)⟩

/-! ### Claim C8 -/

/-- C8: for every category, the handler fails with `InvalidArgument`
(status 400) if and only if the raw key is empty or splits into zero
non-empty candidates after trimming a leading path separator and
splitting on `,`; in that case the handler performs no store lookup, no
filesystem probe and no redirect (its event trace is empty and the
response is exactly the invalid-argument body). -/
theorem c8_invalid_key (env : Env) (typ param : String) (info : Bool) :
    ((∃ msg, (GetMedia env typ param info).1 = some (.jsonError 400 msg)) ↔
      (trimPfx param "/" = "" ∨ Str2List (trimPfx param "/") ',' = [])) ∧
    ((trimPfx param "/" = "" ∨ Str2List (trimPfx param "/") ',' = []) →
      GetMedia env typ param info = (some (invalidArgResp (trimPfx param "/")), [])) := by
  by_cases h1 : trimPfx param "/" = ""
  · constructor
    · constructor
      · intro _
        exact Or.inl h1
      · intro _
        exact ⟨trimPfx param "/", by simp [GetMedia, h1, invalidArgResp]⟩
    · intro _
      simp [GetMedia, h1]
  · by_cases h2 : Str2List (trimPfx param "/") ',' = []
    · constructor
      · constructor
        · intro _
          exact Or.inr h2
        · intro _
          exact ⟨trimPfx param "/", by simp [GetMedia, h1, h2, invalidArgResp]⟩
      · intro _
        simp [GetMedia, h1, h2]
    · have hloop : GetMedia env typ param info =
          mediaLoop env typ info (Str2List (trimPfx param "/") ',') none := by
        simp [GetMedia, h1, h2]
      constructor
      · constructor
        · intro h400
          rcases h400 with ⟨msg, hmsg⟩
          rw [hloop] at hmsg
          exact absurd hmsg (mediaLoop_no_400 env typ info _ none msg)
        · intro hor
          rcases hor with h | h
          · exact absurd h h1
          · exact absurd h h2
      · intro hor
        rcases hor with h | h
        · exact absurd h h1
        · exact absurd h h2

/-- Witness for C8: the bare key `/` trims to the empty key and is
rejected with the 400 invalid-argument response and an empty trace. -/
theorem c8_invalid_key_witness :
    GetMedia envMiss "image" "/" false = (some (invalidArgResp (trimPfx "/" "/")), []) :=
  (c8_invalid_key envMiss "image" "/" false).2 (Or.inl (by decide))

/-! ### Claim C2 -/

/-- With the `info` flag set, the loop never transcodes, and any store
hit makes it return the record as 200 JSON with no redirect in the whole
request. -/
theorem mediaLoop_info (env : Env) (typ : String) :
    ∀ (keys : List String) (acc : Option StoreErr),
    (∀ d, Ev.transcoded d ∉ (mediaLoop env typ true keys acc).2) ∧
    (∀ k, Ev.storeHit k ∈ (mediaLoop env typ true keys acc).2 →
      (∃ m, (mediaLoop env typ true keys acc).1 = some (.jsonMedia 200 m)) ∧
      (∀ loc, Ev.redirected loc ∉ (mediaLoop env typ true keys acc).2)) := by
  intro keys
  induction keys with
  | nil =>
    intro acc
    constructor
    · intro d
      simp [mediaLoop]
    · intro k hk
      simp [mediaLoop] at hk
  | cons k rest ih =>
    intro acc
    by_cases hlen : k.length ≠ 32
    · by_cases hfs : env.fs (goJoin env.dataDir k) = .notExist
      · have he : mediaLoop env typ true (k :: rest) acc =
            ((mediaLoop env typ true rest acc).1,
              .statProbe (goJoin env.dataDir k) :: (mediaLoop env typ true rest acc).2) := by
          simp [mediaLoop, hlen, hfs]
        rw [he]
        constructor
        · intro d hmem
          rcases List.mem_cons.mp hmem with h | h
          · exact Ev.noConfusion h
          · exact (ih acc).1 d h
        · intro kk hmem
          rcases List.mem_cons.mp hmem with h | h
          · exact Ev.noConfusion h
          · refine ⟨((ih acc).2 kk h).1, ?_⟩
            intro loc hmem2
            rcases List.mem_cons.mp hmem2 with h2 | h2
            · exact Ev.noConfusion h2
            · exact ((ih acc).2 kk h).2 loc h2
      · have he : mediaLoop env typ true (k :: rest) acc =
            (some (.redirect 302 ("/data/" ++ k)),
              [.statProbe (goJoin env.dataDir k), .redirected ("/data/" ++ k)]) := by
          simp [mediaLoop, hlen, hfs]
        rw [he]
        constructor
        · intro d
          simp
        · intro kk hmem
          simp at hmem
    · cases hstore : env.store typ k with
      | error e =>
        have he : mediaLoop env typ true (k :: rest) acc =
            ((mediaLoop env typ true rest (some e)).1,
              .storeLookup typ k :: .errRecorded e ::
                (mediaLoop env typ true rest (some e)).2) := by
          simp [mediaLoop, hlen, hstore]
        rw [he]
        constructor
        · intro d hmem
          rcases List.mem_cons.mp hmem with h | h
          · exact Ev.noConfusion h
          rcases List.mem_cons.mp h with h2 | h2
          · exact Ev.noConfusion h2
          · exact (ih (some e)).1 d h2
        · intro kk hmem
          rcases List.mem_cons.mp hmem with h | h
          · exact Ev.noConfusion h
          rcases List.mem_cons.mp h with h2 | h2
          · exact Ev.noConfusion h2
          · refine ⟨((ih (some e)).2 kk h2).1, ?_⟩
            intro loc hmem2
            rcases List.mem_cons.mp hmem2 with h3 | h3
            · exact Ev.noConfusion h3
            rcases List.mem_cons.mp h3 with h4 | h4
            · exact Ev.noConfusion h4
            · exact ((ih (some e)).2 kk h2).2 loc h4
      | ok m =>
        have he : mediaLoop env typ true (k :: rest) acc =
            (some (.jsonMedia 200 m), [.storeLookup typ k, .storeHit k]) := by
          simp [mediaLoop, hlen, hstore, hitOutcome, hitEvents]
        rw [he]
        constructor
        · intro d
          simp
        · intro kk _
          exact ⟨⟨m, rfl⟩, by intro loc; simp⟩

/-- C2: for every category and key, when the `info` query flag is present
the resolution short-circuits before any redirect/transcode logic: no
voice transcode happens in the request, and if a store lookup succeeds
the response is the record as 200 JSON and no redirect was issued in the
request. -/
theorem c2_info_short_circuit (env : Env) (typ param : String) :
    (∀ d, Ev.transcoded d ∉ (GetMedia env typ param true).2) ∧
    (∀ k, Ev.storeHit k ∈ (GetMedia env typ param true).2 →
      (∃ m, (GetMedia env typ param true).1 = some (.jsonMedia 200 m)) ∧
      (∀ loc, Ev.redirected loc ∉ (GetMedia env typ param true).2)) := by
  by_cases h1 : trimPfx param "/" = ""
  · have he : GetMedia env typ param true = (some (invalidArgResp (trimPfx param "/")), []) := by
      simp [GetMedia, h1]
    rw [he]
    constructor
    · intro d
      simp
    · intro k hk
      simp at hk
  · by_cases h2 : Str2List (trimPfx param "/") ',' = []
    · have he : GetMedia env typ param true =
          (some (invalidArgResp (trimPfx param "/")), []) := by
        simp [GetMedia, h1, h2]
      rw [he]
      constructor
      · intro d
        simp
      · intro k hk
        simp at hk
    · have he : GetMedia env typ param true =
          mediaLoop env typ true (Str2List (trimPfx param "/") ',') none := by
        simp [GetMedia, h1, h2]
      rw [he]
      exact mediaLoop_info env typ _ none

/-- Witness for C2: an info request whose hash candidate hits the store
issues no transcode and no redirect. -/
theorem c2_info_short_circuit_witness :
    Ev.transcoded [5] ∉ (GetMedia envHitImage "image" ("/" ++ hashK) true).2 ∧
    Ev.redirected ("/data/" ++ recImage.Path) ∉
      (GetMedia envHitImage "image" ("/" ++ hashK) true).2 :=
  ⟨(c2_info_short_circuit envHitImage "image" ("/" ++ hashK)).1 [5],
   ((c2_info_short_circuit envHitImage "image" ("/" ++ hashK)).2 hashK
      (by decide)).2 ("/data/" ++ recImage.Path)⟩

/-! ### Claim C4 -/

/-- C4: resolution returns the outcome of the first viable candidate in
original order.  With every candidate before `k` skippable: if `k` is a
path candidate whose probe does not report not-exists, the response is a
redirect to the data endpoint for `k` (regardless of any later hash
candidate); if `k` is a hash candidate that hits the store, the response
is that record's outcome; and when the skipped prefix consists of
non-existent path candidates and `k` is viable, no error is ever
recorded. -/
theorem c4_first_viable (env : Env) (typ : String) (info : Bool) (param : String)
    (pre : List String) (k : String) (rest : List String)
    (hsplit : Str2List (trimPfx param "/") ',' = pre ++ k :: rest)
    (hskip : ∀ p ∈ pre, skippable env typ p) :
    (k.length ≠ 32 → env.fs (goJoin env.dataDir k) ≠ .notExist →
      (GetMedia env typ param info).1 = some (.redirect 302 ("/data/" ++ k))) ∧
    (∀ m, k.length = 32 → env.store typ k = .ok m →
      (GetMedia env typ param info).1 = some (hitOutcome env info m)) ∧
    ((∀ p ∈ pre, p.length ≠ 32 ∧ env.fs (goJoin env.dataDir p) = .notExist) →
      ((k.length ≠ 32 ∧ env.fs (goJoin env.dataDir k) ≠ .notExist) ∨
        (k.length = 32 ∧ ∃ m, env.store typ k = .ok m)) →
      ∀ e, Ev.errRecorded e ∉ (GetMedia env typ param info).2) := by
  have h1 : trimPfx param "/" ≠ "" := by
    intro h
    rw [h] at hsplit
    rw [show Str2List "" ',' = [] from rfl] at hsplit
    exact (List.cons_ne_nil k rest) (List.append_eq_nil.mp hsplit.symm).2
  have h2 : Str2List (trimPfx param "/") ',' ≠ [] := by
    rw [hsplit]
    simp
  have hmain : GetMedia env typ param info =
      mediaLoop env typ info (pre ++ k :: rest) none := by
    unfold GetMedia
    rw [if_neg h1, if_neg h2, hsplit]
  refine ⟨?_, ?_, ?_⟩
  · intro hlen hfs
    obtain ⟨acc2, hacc⟩ := mediaLoop_skip env typ info pre hskip (k :: rest) none
    rw [hmain, hacc]
    simp [mediaLoop, hlen, hfs]
  · intro m hlen hstore
    obtain ⟨acc2, hacc⟩ := mediaLoop_skip env typ info pre hskip (k :: rest) none
    rw [hmain, hacc]
    simp [mediaLoop, hlen, hstore]
  · intro hpaths hviable e hmem
    rw [hmain, mediaLoop_skip_paths env typ info pre hpaths (k :: rest) none] at hmem
    rcases List.mem_append.mp hmem with h | h
    · rcases List.mem_map.mp h with ⟨p, _, hp⟩
      exact Ev.noConfusion hp
    · rcases hviable with ⟨hlen, hfs⟩ | ⟨hlen, m, hstore⟩
      · rw [show (mediaLoop env typ info (k :: rest) none).2 =
            [.statProbe (goJoin env.dataDir k), .redirected ("/data/" ++ k)] from by
          simp [mediaLoop, hlen, hfs]] at h
        simp at h
      · rw [show (mediaLoop env typ info (k :: rest) none).2 =
            hitEvents info typ k m from by simp [mediaLoop, hlen, hstore]] at h
        exact hitEvents_no_err info typ k m e h

/-- Witness for C4: a missing path candidate before a hitting hash
candidate is skipped and the hash candidate's outcome is returned. -/
theorem c4_first_viable_witness :
    (GetMedia envHitImage "image" ("/x.jpg," ++ hashK) false).1 =
      some (hitOutcome envHitImage false recImage) := by
  have hs : ∀ p ∈ ["x.jpg"], skippable envHitImage "image" p := by
    intro p hp
    rw [List.mem_singleton] at hp
    subst hp
    exact Or.inl ⟨by decide, rfl⟩
  exact (c4_first_viable envHitImage "image" false ("/x.jpg," ++ hashK) ["x.jpg"] hashK []
    (by decide) hs).2.1 recImage (by decide) rfl

/-! ### Claim C5 -/

/-- C5: the error accumulator holds at most one error, overwritten by
each failing hash lookup and surfaced only when no candidate succeeds:
for a key `a,b` with `a` a 32-character hash absent from the store and
`b` a 32-character hash present, resolution returns `b`'s outcome and the
only recorded error is `a`'s lookup failure — never an error for `b`. -/
theorem c5_error_accumulator (env : Env) (typ : String) (info : Bool) (a b : String)
    (e : StoreErr) (m : MediaRecord)
    (ha32 : a.length = 32) (hb32 : b.length = 32)
    (hac : ',' ∉ a.data) (hbc : ',' ∉ b.data)
    (hsa : env.store typ a = .error e) (hsb : env.store typ b = .ok m) :
    (GetMedia env typ ("/" ++ (a ++ "," ++ b)) info).1 = some (hitOutcome env info m) ∧
    (GetMedia env typ ("/" ++ (a ++ "," ++ b)) info).2.filter isErrEv =
      [Ev.errRecorded e] := by
  have hA : a.data ≠ [] := by
    intro h
    have h32 : a.data.length = 32 := ha32
    rw [h] at h32
    exact absurd h32 (by decide)
  have hB : b.data ≠ [] := by
    intro h
    have h32 : b.data.length = 32 := hb32
    rw [h] at h32
    exact absurd h32 (by decide)
  have hkey : trimPfx ("/" ++ (a ++ "," ++ b)) "/" = a ++ "," ++ b := trimPfx_slash _
  have hsplit : Str2List (a ++ "," ++ b) ',' = [a, b] := Str2List_pair a b hac hbc hA hB
  have h1 : ¬(a ++ "," ++ b = "") := by
    intro h
    rw [h, show Str2List "" ',' = [] from rfl] at hsplit
    exact List.noConfusion hsplit
  have h2 : Str2List (a ++ "," ++ b) ',' ≠ [] := by
    rw [hsplit]
    simp
  have hmain : GetMedia env typ ("/" ++ (a ++ "," ++ b)) info =
      mediaLoop env typ info [a, b] none := by
    unfold GetMedia
    rw [hkey, if_neg h1, if_neg h2, hsplit]
  have hla : mediaLoop env typ info [a, b] none =
      ((mediaLoop env typ info [b] (some e)).1,
        .storeLookup typ a :: .errRecorded e :: (mediaLoop env typ info [b] (some e)).2) := by
    simp [mediaLoop, ha32, hsa]
  have hlb : mediaLoop env typ info [b] (some e) =
      (some (hitOutcome env info m), hitEvents info typ b m) := by
    simp [mediaLoop, hb32, hsb]
  rw [hmain, hla, hlb]
  refine ⟨rfl, ?_⟩
  show (Ev.storeLookup typ a :: Ev.errRecorded e :: hitEvents info typ b m).filter isErrEv = _
  rw [List.filter_cons, List.filter_cons]
  simp only [show isErrEv (Ev.storeLookup typ a) = false from rfl,
    show isErrEv (Ev.errRecorded e) = true from rfl]
  simp [hitEvents_filter_err]

/-- Witness for C5: with `a` failing (internal error) and `b` hitting,
the response is `b`'s outcome and only `a`'s error is recorded. -/
theorem c5_error_accumulator_witness :
    (GetMedia envAB "image" ("/" ++ (hashA ++ "," ++ hashB)) false).1 =
      some (hitOutcome envAB false recImage) ∧
    (GetMedia envAB "image" ("/" ++ (hashA ++ "," ++ hashB)) false).2.filter isErrEv =
      [Ev.errRecorded (.internal "db down")] :=
  c5_error_accumulator envAB "image" false hashA hashB (.internal "db down") recImage
    (by decide) (by decide) (by decide) (by decide) rfl rfl

/-! ### Claim C1 -/

/-- C1 counterexample: a request whose only candidate is a non-existent
path candidate ends the loop with an empty accumulator, and the handler
then returns WITHOUT writing any response (`none`): contrary to the
claim, no `NotFound`/404 structured error body is produced in this
case. -/
theorem c1_counterexample :
    (GetMedia envMiss "image" "/pic.jpg" false).1 = none := by decide

/-- C1 (amended): when the candidate list is exhausted with no success,
the handler renders the last recorded error if at least one hash-candidate
lookup failed, and otherwise — in particular when every candidate was a
non-existent path candidate — it writes no response at all (there is no
`NotFound`/404 fallback). -/
theorem c1_exhausted (env : Env) (typ param : String) (info : Bool)
    (h1 : trimPfx param "/" ≠ "")
    (h2 : Str2List (trimPfx param "/") ',' ≠ [])
    (hskip : ∀ k ∈ Str2List (trimPfx param "/") ',', skippable env typ k) :
    (GetMedia env typ param info).1 =
      (exhaustErr env typ (Str2List (trimPfx param "/") ',') none).map errResp ∧
    ((∀ k ∈ Str2List (trimPfx param "/") ',', k.length ≠ 32) →
      (GetMedia env typ param info).1 = none) := by
  have hmain : (GetMedia env typ param info).1 =
      (mediaLoop env typ info (Str2List (trimPfx param "/") ',') none).1 := by
    simp [GetMedia, h1, h2]
  constructor
  · rw [hmain]
    exact mediaLoop_exhaust env typ info _ none hskip
  · intro hpaths
    rw [hmain, mediaLoop_exhaust env typ info _ none hskip,
      exhaustErr_paths env typ _ none hpaths]
    rfl

/-- Witness for the amended C1: all candidates are non-existent path
candidates, so the handler writes no response. -/
theorem c1_exhausted_witness :
    (GetMedia envMiss "image" "/nope.png" false).1 = none := by
  have hlist : Str2List (trimPfx "/nope.png" "/") ',' = ["nope.png"] := by decide
  have hs : ∀ k ∈ Str2List (trimPfx "/nope.png" "/") ',', skippable envMiss "image" k := by
    intro k hk
    rw [hlist, List.mem_singleton] at hk
    subst hk
    exact Or.inl ⟨by decide, rfl⟩
  have hp : ∀ k ∈ Str2List (trimPfx "/nope.png" "/") ',', k.length ≠ 32 := by
    intro k hk
    rw [hlist, List.mem_singleton] at hk
    subst hk
    decide
  exact (c1_exhausted envMiss "image" "/nope.png" false (by decide) (by decide) hs).2 hp

/-! ### Claim C6 -/

/-- C6: for every existing file whose (case-insensitively lowercased)
extension is `.dat`, the data endpoint reads the file and invokes the
container decoder; on success it returns the decoded bytes with the exact
content-type mapping jpg→image/jpeg, png→image/png, gif→image/gif,
bmp→image/bmp and image/jpg for any other decoded tag (see `ctFor`); on
decode failure it serves the raw file verbatim — never an error
response. -/
theorem c6_dat_decode (env : Env) (param : String) (b : List Nat)
    (hfs : env.fs (GetMediaData_abs env.dataDir param) ≠ .notExist)
    (hext : toLowerStr (extOf (GetMediaData_abs env.dataDir param)) = ".dat")
    (hread : env.readF (GetMediaData_abs env.dataDir param) = .ok b) :
    (∀ msg, env.dat b = .error msg →
      GetMediaData env param = .fileResp (GetMediaData_abs env.dataDir param)) ∧
    (∀ out fmt, env.dat b = .ok (out, fmt) →
      GetMediaData env param = .dataResp 200 (ctFor fmt) out) := by
  have hbody : GetMediaData env param =
      HandleDatFile env (GetMediaData_abs env.dataDir param) := by
    unfold GetMediaData
    cases hf : env.fs (GetMediaData_abs env.dataDir param) with
    | notExist => exact absurd hf hfs
    | ok => simp [hext]
    | errOther => simp [hext]
  constructor
  · intro msg hdat
    rw [hbody]
    simp [HandleDatFile, hread, hdat]
  · intro out fmt hdat
    rw [hbody]
    simp [HandleDatFile, hread, hdat]

/-- Witness for C6: an existing `.DAT` file (uppercase extension) whose
decoder returns png bytes is served as `image/png` with the decoded
bytes. -/
theorem c6_dat_decode_witness :
    GetMediaData envDat "/x.DAT" = .dataResp 200 "image/png" [4, 5] := by
  have h := (c6_dat_decode envDat "/x.DAT" [1, 2, 3] (by decide) (by decide) rfl).2
    [4, 5] "png" rfl
  rw [h]
  rfl

/-! ### Claim C3 -/

/-- Evaluating `goClean` of a non-empty path with surviving elements is their
reassembly. -/
theorem goClean_eq_of_ne (s : String) (h1 : s.data ≠ []) (h2 : goCleanSegs s ≠ []) :
    goClean s = ⟨(if rooted s.data then ['/'] else []) ++ joinSegs (goCleanSegs s)⟩ := by
  unfold goClean
  rw [if_neg h1, if_neg h2]

/-- C3: the data endpoint normalizes its path parameter (collapsing `.`
and `..` elements) before joining it to the fixed data root and before
any existence check, so the resolved absolute path always stays within
the data root: the root's real path elements are a prefix of the resolved
path's real elements.  The hypotheses state that the configured data root
is non-trivial (non-empty, with no `..` element of its own) and that the
parameter begins with `/`, which is guaranteed for the gin wildcard
parameter feeding `GetMediaData`. -/
theorem c3_no_traversal (dataDir p : String)
    (hroot : dataDir ≠ "")
    (hdd : ['.', '.'] ∉ splitPart '/' dataDir.data)
    (hp : rooted p.data = true) :
    realSegs dataDir <+: realSegs (GetMediaData_abs dataDir p) := by
  have hpne : p.data ≠ [] := by
    intro h
    rw [h] at hp
    simp [rooted] at hp
  -- the cleaned parameter: its elements are good and contain no `..`
  have hSgood : ∀ x ∈ goCleanSegs p, goodSeg x := by
    intro x hx
    unfold goCleanSegs cleanSegs at hx
    rw [List.mem_reverse] at hx
    exact foldl_cleanStep_good (rooted p.data) (splitPart '/' p.data) []
      (fun s hs => splitPart_mem_no_sep '/' p.data s hs) (by simp) x hx
  have hSnodd : ∀ x ∈ goCleanSegs p, x ≠ ['.', '.'] := by
    intro x hx
    unfold goCleanSegs cleanSegs at hx
    rw [List.mem_reverse, hp] at hx
    exact foldl_cleanStep_rooted_no_dd (splitPart '/' p.data) [] (by simp) x hx
  -- the shape of the cleaned parameter
  have hqdata : (goCleanSegs p = [] ∧ goClean p = "/") ∨
      (goCleanSegs p ≠ [] ∧ goClean p = ⟨'/' :: joinSegs (goCleanSegs p)⟩) := by
    by_cases hS : goCleanSegs p = []
    · left
      refine ⟨hS, ?_⟩
      unfold goClean
      rw [if_neg hpne, if_pos hS, hp]
      simp
    · right
      refine ⟨hS, ?_⟩
      unfold goClean
      rw [if_neg hpne, if_neg hS, hp]
      simp
  -- the chunks of the cleaned parameter
  have hQ : splitPart '/' (goClean p).data = [] :: goCleanSegs p ∨
      (goCleanSegs p = [] ∧ splitPart '/' (goClean p).data = [[], []]) := by
    rcases hqdata with ⟨hS, hq⟩ | ⟨hS, hq⟩
    · right
      exact ⟨hS, by rw [hq]; rfl⟩
    · left
      rw [hq]
      show splitPart '/' ('/' :: joinSegs (goCleanSegs p)) = _
      rw [show splitPart '/' ('/' :: joinSegs (goCleanSegs p)) =
          [] :: splitPart '/' (joinSegs (goCleanSegs p)) from by simp [splitPart]]
      rw [joinSegs_split (goCleanSegs p) hS (fun s hs => (hSgood s hs).2.2)]
  -- the concatenated path handed to the final clean
  have hcat : (dataDir ++ "/" ++ goClean p).data = dataDir.data ++ '/' :: (goClean p).data := by
    rw [strData_append, strData_append, List.append_assoc]
    rfl
  have hsplitcat : splitPart '/' (dataDir ++ "/" ++ goClean p).data =
      splitPart '/' dataDir.data ++ splitPart '/' (goClean p).data := by
    rw [hcat, splitPart_append]
  have hnodd : ∀ s ∈ splitPart '/' (dataDir ++ "/" ++ goClean p).data, s ≠ ['.', '.'] := by
    intro s hs
    rw [hsplitcat] at hs
    rcases List.mem_append.mp hs with h | h
    · intro he
      rw [he] at h
      exact hdd h
    · rcases hQ with hq | ⟨hS, hq⟩
      · rw [hq] at h
        rcases List.mem_cons.mp h with h1 | h1
        · rw [h1]
          decide
        · exact hSnodd s h1
      · rw [hq] at h
        simp at h
        rw [h]
        decide
  -- the cleaned elements of the joined path: root elements then parameter elements
  have hT : goCleanSegs (dataDir ++ "/" ++ goClean p) =
      (splitPart '/' dataDir.data).filter keepSeg ++
        (splitPart '/' (goClean p).data).filter keepSeg := by
    unfold goCleanSegs cleanSegs
    rw [foldl_cleanStep_no_dd _ _ [] hnodd, List.append_nil, List.reverse_reverse,
      hsplitcat, List.filter_append]
  have hQf : (splitPart '/' (goClean p).data).filter keepSeg = goCleanSegs p := by
    rcases hQ with hq | ⟨hS, hq⟩
    · rw [hq, List.filter_cons]
      simp only [show keepSeg ([] : List Char) = false from by decide]
      exact List.filter_eq_self.mpr (fun a ha => keepSeg_of_good a (hSgood a ha))
    · rw [hq, hS]
      decide
  have hT2 : goCleanSegs (dataDir ++ "/" ++ goClean p) =
      (splitPart '/' dataDir.data).filter keepSeg ++ goCleanSegs p := by
    rw [hT, hQf]
  have hTgood : ∀ x ∈ goCleanSegs (dataDir ++ "/" ++ goClean p), goodSeg x := by
    intro x hx
    unfold goCleanSegs cleanSegs at hx
    rw [List.mem_reverse] at hx
    exact foldl_cleanStep_good _ _ []
      (fun s hs => splitPart_mem_no_sep '/' _ s hs) (by simp) x hx
  -- the absolute path is the clean of the join
  have habs : GetMediaData_abs dataDir p = goClean (dataDir ++ "/" ++ goClean p) := by
    unfold GetMediaData_abs goJoin
    rw [if_neg hroot]
  have hcatne : (dataDir ++ "/" ++ goClean p).data ≠ [] := by
    rw [hcat]
    intro h
    rcases List.append_eq_nil.mp h with ⟨_, h2⟩
    exact List.noConfusion h2
  by_cases hTnil : goCleanSegs (dataDir ++ "/" ++ goClean p) = []
  · -- everything collapsed: the root also has no real elements
    have hDnil : (splitPart '/' dataDir.data).filter keepSeg = [] :=
      (List.append_eq_nil.mp (hT2 ▸ hTnil)).1
    rw [show realSegs dataDir = (splitPart '/' dataDir.data).filter keepSeg from rfl, hDnil]
    exact List.nil_prefix
  · have hjoin : splitPart '/' (joinSegs (goCleanSegs (dataDir ++ "/" ++ goClean p))) =
        goCleanSegs (dataDir ++ "/" ++ goClean p) :=
      joinSegs_split _ hTnil (fun s hs => (hTgood s hs).2.2)
    have habsval : GetMediaData_abs dataDir p =
        (⟨(if rooted (dataDir ++ "/" ++ goClean p).data then ['/'] else []) ++
          joinSegs (goCleanSegs (dataDir ++ "/" ++ goClean p))⟩ : String) := by
      rw [habs]
      exact goClean_eq_of_ne _ hcatne hTnil
    have habs2 : realSegs (GetMediaData_abs dataDir p) =
        goCleanSegs (dataDir ++ "/" ++ goClean p) := by
      rw [habsval]
      unfold realSegs
      by_cases hR : rooted (dataDir ++ "/" ++ goClean p).data = true
      · rw [hR]
        rw [show ((⟨(if true = true then ['/'] else []) ++
            joinSegs (goCleanSegs (dataDir ++ "/" ++ goClean p))⟩ : String)).data =
            '/' :: joinSegs (goCleanSegs (dataDir ++ "/" ++ goClean p)) from rfl]
        rw [show splitPart '/' ('/' :: joinSegs (goCleanSegs (dataDir ++ "/" ++ goClean p))) =
            [] :: splitPart '/' (joinSegs (goCleanSegs (dataDir ++ "/" ++ goClean p)))
          from by simp [splitPart]]
        rw [hjoin, List.filter_cons]
        simp only [show keepSeg ([] : List Char) = false from by decide]
        exact List.filter_eq_self.mpr (fun a ha => keepSeg_of_good a (hTgood a ha))
      · rw [show rooted (dataDir ++ "/" ++ goClean p).data = false from by
          simpa using hR]
        rw [show ((⟨(if false = true then ['/'] else []) ++
            joinSegs (goCleanSegs (dataDir ++ "/" ++ goClean p))⟩ : String)).data =
            joinSegs (goCleanSegs (dataDir ++ "/" ++ goClean p)) from rfl]
        rw [hjoin]
        exact List.filter_eq_self.mpr (fun a ha => keepSeg_of_good a (hTgood a ha))
    rw [habs2, hT2]
    exact ⟨goCleanSegs p, rfl⟩

/-- Witness for C3: the gin parameter `/../../etc/passwd` — a relative
path containing `../../etc/passwd` — resolves to `/data/etc/passwd`,
inside the data root `/data`. -/
theorem c3_no_traversal_witness :
    realSegs "/data" <+: realSegs (GetMediaData_abs "/data" "/../../etc/passwd") ∧
    GetMediaData_abs "/data" "/../../etc/passwd" = "/data/etc/passwd" :=
  ⟨c3_no_traversal "/data" "/../../etc/passwd" (by decide) (by decide) (by decide),
   by decide⟩

end Chatlog
